import Mathlib

/-
Verification of the reactpy core against its specification.

Shallow embedding of three source files:
  - src/reactpy/core/hooks.py   (use_state dispatch, use_memo, use_effect,
    use_async_effect, strictly_equal, run_effect_cleanup)
  - src/reactpy/core/vdom.py    (Vdom.__call__, separate_attributes_and_children,
    separate_attributes_handlers_and_inline_javascript, _flatten_children)
  - idom/core/render.py         (SingleStateRenderer._outgoing,
    SharedStateRenderer: _outgoing, _outgoing_loop, _render_loop, __aexit__)
-/

namespace ReactPySpec

/-! ### A universe of Python runtime values

The hooks code is dynamically typed: `strictly_equal` branches on `type(x)`,
on `__qualname__` and `__code__` attributes, and on the `==` operator.  We
embed a representative universe of Python values: `None`, `int`, `str`,
`bytes`, `bytearray`, `tuple`, `list`, plain class instances, and functions.
Mutable objects carry an object id so that reference identity (`is`) is
expressible.  `float`, `complex` and `memoryview` are omitted: IEEE floating
point is outside the embedding, and they play the same role as `int` in every
branch of the code.
-/

/-- Model of a CPython code object: the attributes whose name starts with
`co_` that the source compares, together with the four position-metadata
attributes it excludes (`co_positions`, `co_linetable`, `co_lines`,
`co_lnotab`).  Attribute values are modelled as their printed form. -/
structure CodeObj where
  co_argcount : Nat
  co_code : List Nat
  co_consts : List String
  co_name : String
  co_varnames : List String
  co_positions : Nat
  co_linetable : Nat
  co_lines : Nat
  co_lnotab : Nat
deriving DecidableEq, Repr

/-- The comparison `all(getattr(x.__code__, a) == getattr(y.__code__, a) for a
in dir(x.__code__) if a.startswith("co_") and a not in {"co_positions",
"co_linetable", "co_lines", "co_lnotab"})` from `strictly_equal`: every
modelled `co_` attribute except the four excluded ones must agree. -/
def codeFingerprintEq (c d : CodeObj) : Bool :=
  c.co_argcount == d.co_argcount && c.co_code == d.co_code &&
    c.co_consts == d.co_consts && c.co_name == d.co_name &&
    c.co_varnames == d.co_varnames

/-- A Python runtime value.  `objId` fields model the object identity of
mutable objects; `vobj` is a plain instance of a user class (whose default
`__eq__` is identity); `vfun` is a function with its `__qualname__` and
`__code__`. -/
inductive PyVal where
  | vnone : PyVal
  | vint (n : Int) : PyVal
  | vstr (s : String) : PyVal
  | vbytes (b : List Nat) : PyVal
  | vbytearray (b : List Nat) (objId : Nat) : PyVal
  | vtuple (elems : List PyVal) : PyVal
  | vlist (elems : List PyVal) (objId : Nat) : PyVal
  | vobj (cls : String) (objId : Nat) : PyVal
  | vfun (qualname : String) (code : CodeObj) (objId : Nat) : PyVal
deriving Repr

/-- The name of `type(x)`. -/
def pyType : PyVal → String
  | .vnone => "NoneType"
  | .vint _ => "int"
  | .vstr _ => "str"
  | .vbytes _ => "bytes"
  | .vbytearray _ _ => "bytearray"
  | .vtuple _ => "tuple"
  | .vlist _ _ => "list"
  | .vobj cls _ => cls
  | .vfun _ _ _ => "function"

mutual

/-- Python `x == y` for this universe: numbers, text and binary sequences by
value (`bytes` and `bytearray` compare equal cross-type by content), `tuple`
and `list` elementwise against the same kind, and every other object by the
default `object.__eq__`, which is reference identity.  No value of this
universe raises from `__eq__`. -/
def pyEq : PyVal → PyVal → Bool
  | .vnone, .vnone => true
  | .vint a, .vint b => a == b
  | .vstr a, .vstr b => a == b
  | .vbytes a, .vbytes b => a == b
  | .vbytearray a _, .vbytearray b _ => a == b
  | .vbytes a, .vbytearray b _ => a == b
  | .vbytearray a _, .vbytes b => a == b
  | .vtuple xs, .vtuple ys => pyEqList xs ys
  | .vlist xs _, .vlist ys _ => pyEqList xs ys
  | .vobj _ i, .vobj _ j => i == j
  | .vfun _ _ i, .vfun _ _ j => i == j
  | _, _ => false

/-- Elementwise `==` of two Python sequences. -/
def pyEqList : List PyVal → List PyVal → Bool
  | [], [] => true
  | x :: xs, y :: ys => pyEq x y && pyEqList xs ys
  | _, _ => false

end

mutual

/-- Python `x is y`: the same object.  Two values carrying distinct object
ids are distinct objects; immutable values are identified with their
content. -/
def pyIs : PyVal → PyVal → Bool
  | .vnone, .vnone => true
  | .vint a, .vint b => a == b
  | .vstr a, .vstr b => a == b
  | .vbytes a, .vbytes b => a == b
  | .vbytearray a i, .vbytearray b j => a == b && i == j
  | .vtuple xs, .vtuple ys => pyIsList xs ys
  | .vlist xs i, .vlist ys j => pyIsList xs ys && i == j
  | .vobj c i, .vobj d j => c == d && i == j
  | .vfun q c i, .vfun r d j => q == r && decide (c = d) && i == j
  | _, _ => false

/-- Structural identity of element lists. -/
def pyIsList : List PyVal → List PyVal → Bool
  | [], [] => true
  | x :: xs, y :: ys => pyIs x y && pyIsList xs ys
  | _, _ => false

end

/-- Substring test, used for the checks `"<lambda>" in x.__qualname__` and
`"<locals>" in x.__qualname__`: a nonempty pattern occurs in `s` exactly when
splitting `s` on it yields more than one part. -/
def containsSub (s pat : String) : Bool :=
  (s.splitOn pat).length != 1

/-- Python `hasattr(x, "__qualname__")` over this universe: functions have a
qualified name. -/
def hasQualname : PyVal → Bool
  | .vfun _ _ _ => true
  | _ => false

/-- The `__qualname__` of a function value. -/
def qualnameOf : PyVal → String
  | .vfun q _ _ => q
  | _ => ""

/-- Python `hasattr(x, "__code__")` over this universe. -/
def hasCode : PyVal → Bool
  | .vfun _ _ _ => true
  | _ => false

/-- The `__code__` of a function value. -/
def codeOf : PyVal → CodeObj
  | .vfun _ c _ => c
  | _ => {
      co_argcount := 0, co_code := [], co_consts := [], co_name := "",
      co_varnames := [], co_positions := 0, co_linetable := 0,
      co_lines := 0, co_lnotab := 0 }

/-- Python `hasattr(x, "__eq__")`: every object inherits `object.__eq__`,
so this is true of every value. -/
def hasEqAttr : PyVal → Bool := fun _ => true

def lambdaTag : String := "<lambda>"

def localsTag : String := "<locals>"

/-- `strictly_equal(x, y)` from src/reactpy/core/hooks.py, translated branch
by branch: early false for differing runtime types; the lambda/local-function
branch comparing `__qualname__` and the code fingerprint; then `x == y`
whenever `x` has `__eq__` (every object does, and no `==` of this universe
raises, so the final `x is y` fallback is unreachable here exactly as it is
marked no-coverage in the source). -/
def strictly_equal (x y : PyVal) : Bool :=
  if pyType x != pyType y then false
  else if hasQualname x &&
      (containsSub (qualnameOf x) lambdaTag || containsSub (qualnameOf x) localsTag) &&
      hasCode x then
    if qualnameOf x != qualnameOf y then false
    else codeFingerprintEq (codeOf x) (codeOf y)
  else if hasEqAttr x then pyEq x y
  else pyIs x y

/-! ### The claim C3 vocabulary: the classification used by the spec -/

/-- A locally-defined or anonymous callable in the sense of the equality
policy: it has a qualified name containing a lambda or locals marker, and a
code object. -/
def isLocalCallable (x : PyVal) : Bool :=
  hasQualname x &&
    (containsSub (qualnameOf x) lambdaTag || containsSub (qualnameOf x) localsTag) &&
    hasCode x

/-- The scalar/numeric/text/binary-sequence class of the claim, restricted to
the carriers present in this universe. -/
def scalarValue : PyVal → Bool
  | .vint _ => true
  | .vstr _ => true
  | .vbytes _ => true
  | .vbytearray _ _ => true
  | _ => false

/-- The by-value comparison the spec prescribes for the scalar class, written
directly on the carriers. -/
def scalarEqSpec : PyVal → PyVal → Bool
  | .vint a, .vint b => a == b
  | .vstr a, .vstr b => a == b
  | .vbytes a, .vbytes b => a == b
  | .vbytearray a _, .vbytearray b _ => a == b
  | _, _ => false

/-- Modelled from the spec, amended: the equality policy as the corrected
claim states it.  Differing runtime types are never equal; local or anonymous
callables compare by qualified name plus the code fingerprint; the scalar
class compares by value; every other pair compares by the `==` operator of
its type (reference identity only when `==` raises, which no value of this
universe does). -/
def strictlyEqualSpec (x y : PyVal) : Bool :=
  if pyType x != pyType y then false
  else if isLocalCallable x then
    qualnameOf x == qualnameOf y && codeFingerprintEq (codeOf x) (codeOf y)
  else if scalarValue x then scalarEqSpec x y
  else pyEq x y

/-- The final clause of claim C3 as stated: any two same-type values that are
neither local callables nor of the scalar class compare by reference
identity. -/
def c3IdentityFallbackClaim : Prop :=
  ∀ x y : PyVal, pyType x = pyType y → isLocalCallable x = false →
    scalarValue x = false → strictly_equal x y = pyIs x y

/-! ### C1 — `_CurrentState.dispatch`

A state cell holds `value` and a bound `dispatch`.  `dispatch(new)` computes
`next_value = new(self.value) if callable(new) else new`, and only when
`not strictly_equal(next_value, self.value)` stores the new value and calls
`hook.schedule_render()`.  We count the `schedule_render` calls in the
cell state. -/

/-- The argument of a dispatch call: a plain value, or a callable applied to
the current value (the `callable(new)` branch). -/
inductive DArg where
  | val (v : PyVal) : DArg
  | fn (f : PyVal → PyVal) : DArg

/-- `next_value = new(self.value) if callable(new) else new`. -/
def nextValue (current : PyVal) : DArg → PyVal
  | .val v => v
  | .fn f => f current

/-- A state cell: its stored value and the number of `schedule_render` calls
its dispatch has issued. -/
structure CellState where
  value : PyVal
  renders : Nat

/-- One call of the `dispatch` closure of `_CurrentState`. -/
def dispatch (s : CellState) (a : DArg) : CellState :=
  let next := nextValue s.value a
  if strictly_equal next s.value then s
  else { value := next, renders := s.renders + 1 }

/-- A sequence of dispatch calls against one state cell. -/
def dispatchAll (s : CellState) (args : List DArg) : CellState :=
  args.foldl dispatch s

/-- The dispatched values the equality policy judges different from the
then-current value, in order. -/
def acceptedValues (current : PyVal) : List DArg → List PyVal
  | [] => []
  | a :: rest =>
    let next := nextValue current a
    if strictly_equal next current then acceptedValues current rest
    else next :: acceptedValues next rest

/-- The last element of a list, or the default when the list is empty. -/
def lastD : List PyVal → PyVal → PyVal
  | [], d => d
  | v :: vs, _ => lastD vs v

/-! ### C2 — `use_memo`

The memo cell stores `value` and `deps`; `none` models an empty cell (first
call for the hook slot).  The third component of the result records whether
the supplied function was invoked (the `changed` flag of the source). -/

/-- The `_Memo` storage object. -/
structure MemoCell where
  value : PyVal
  deps : List PyVal

/-- `len(memo.deps) != len(dependencies) or not all(strictly_equal(current,
new) for current, new in zip(memo.deps, dependencies))`. -/
def depsChanged (stored newDeps : List PyVal) : Bool :=
  stored.length != newDeps.length ||
    !((stored.zip newDeps).all fun p => strictly_equal p.1 p.2)

/-- `use_memo` from src/reactpy/core/hooks.py: the empty-cell, `deps is
None`, changed-deps and unchanged branches, returning the updated cell, the
returned value, and whether `function` was invoked. -/
def use_memo (memo : Option MemoCell) (deps : Option (List PyVal))
    (f : Unit → PyVal) : MemoCell × PyVal × Bool :=
  match memo with
  | none =>
    let v := f ()
    ({ value := v, deps := deps.getD [] }, v, true)
  | some m =>
    match deps with
    | none =>
      let v := f ()
      ({ value := v, deps := [] }, v, true)
    | some d =>
      if depsChanged m.deps d then
        let v := f ()
        ({ value := v, deps := d }, v, true)
      else (m, m.value, false)

/-! ### C4 — `use_effect` cleanup ordering

An activation of registration `n` runs, inside the spawned `effect`
coroutine: `run_effect_cleanup(cleanup_func)`, then the effect body whose
returned cleanup is stored in the shared `cleanup_func` ref, then (after
`await stop.wait()`) `run_effect_cleanup(cleanup_func)` again.  The two
synchronous sections are atomic between awaits; a run of the hook slot is an
interleaving of these sections.  `Block.pre n` is registration n's section
before its await, `Block.post m` the section after registration m's stop
signal.  `ret n` says whether registration n's body returns a cleanup; the
cleanup stored by registration n is named `n`. -/

/-- An atomic section of an effect coroutine. -/
inductive Block where
  | pre (n : Nat) : Block
  | post (n : Nat) : Block
deriving DecidableEq, Repr

/-- An observable event of the effect model: registration `n`'s stored
cleanup was invoked, or registration `n`'s body ran. -/
inductive Ev where
  | invoked (n : Nat) : Ev
  | ran (n : Nat) : Ev
deriving DecidableEq, Repr

/-- `run_effect_cleanup(cleanup_func)`: invoke the stored cleanup if any and
clear the ref. -/
def run_effect_cleanup : Option Nat → Option Nat × List Ev
  | some c => (none, [.invoked c])
  | none => (none, [])

/-- One atomic section: `pre n` cleans up whatever is stored, runs body `n`
and stores its returned cleanup; `post m` cleans up whatever is stored. -/
def execBlock (ret : Nat → Bool) (ref : Option Nat) : Block → Option Nat × List Ev
  | .pre n => (if ret n then some n else none, (run_effect_cleanup ref).2 ++ [.ran n])
  | .post _ => run_effect_cleanup ref

/-- Run a sequence of atomic sections against the shared cleanup ref,
collecting the event trace. -/
def execBlocks (ret : Nat → Bool) : Option Nat → List Block → Option Nat × List Ev
  | ref, [] => (ref, [])
  | ref, b :: bs =>
    let r1 := execBlock ret ref b
    let r2 := execBlocks ret r1.1 bs
    (r2.1, r1.2 ++ r2.2)

/-- The interleavings the runtime can produce when `next` is the next
registration to activate: registrations activate in order, and a post
section belongs to an already-activated registration.  Post sections may
fall before or after later pre sections. -/
inductive Sched : Nat → List Block → Prop where
  | nil (n : Nat) : Sched n []
  | pre {n : Nat} {bs : List Block} : Sched (n + 1) bs → Sched n (Block.pre n :: bs)
  | post {n m : Nat} {bs : List Block} : m < n → Sched n bs → Sched n (Block.post m :: bs)

/-- Scan that checks the ordering demand of claim C4: every occurrence of
registration `n+1`'s body is preceded by an invocation of registration `n`'s
cleanup.  `seen` records whether `invoked n` has occurred so far. -/
def cleanBeforeBody (n : Nat) : Bool → List Ev → Bool
  | _, [] => true
  | seen, .ran k :: es =>
    if k = n + 1 then seen && cleanBeforeBody n seen es
    else cleanBeforeBody n seen es
  | seen, .invoked c :: es => cleanBeforeBody n (seen || c == n) es

/-- Whether `invoked n` occurs in a trace. -/
def seenInvoked (n : Nat) (l : List Ev) : Bool :=
  l.any fun e => e == .invoked n

/-! ### C5 — `use_async_effect` shutdown

After `stop` fires, the async effect awaits `asyncio.wait([task],
timeout=shutdown_timeout)`; whether the body's task finished within the
grace period is the oracle `taskDone`, and `taskResult` is the cleanup it
returned.  If it finished, the result is stored in the shared cleanup ref;
then `run_effect_cleanup` runs; then `task.cancel()` is called. -/

/-- An observable event of the async shutdown path. -/
inductive AEv where
  | invoked (c : Nat) : AEv
  | cancelled : AEv
deriving DecidableEq, Repr

/-- The tail of `use_async_effect.decorator.effect` after the stop signal:
store the body's result as cleanup when the task finished within
`shutdown_timeout`, run the cleanup, cancel the task. -/
def async_effect_shutdown (cleanup0 : Option Nat) (taskDone : Bool)
    (taskResult : Option Nat) : Option Nat × List AEv :=
  let cur := if taskDone then taskResult else cleanup0
  let step : Option Nat × List AEv :=
    match cur with
    | some c => (none, [AEv.invoked c])
    | none => (none, [])
  (step.1, step.2 ++ [AEv.cancelled])

/-! ### C6 — `Vdom.__call__` on src/reactpy/core/vdom.py

We model the default constructor path (no custom constructor, no import
source, debug and JSON-safety flags off, children allowed) on attribute
values that are text, numbers, plain callables, `EventHandler` instances and
`InlineJavaScript` instances, and on children that are text, mappings or
nested sequences. -/

/-- An attribute value as the classifier sees it. -/
inductive AVal where
  | s (v : String) : AVal
  | n (v : Int) : AVal
  | callb (id : Nat) : AVal
  | handler (id : Nat) : AVal
  | js (v : String) : AVal
deriving DecidableEq, Repr

/-- A positional argument or child: text, a mapping, or an iterable of
further children. -/
inductive PyChild where
  | text (t : String) : PyChild
  | attrs (m : List (String × AVal)) : PyChild
  | many (xs : List PyChild) : PyChild

/-- `_flatten_children`: text and mappings are single children
(`_is_single_child`), every other iterable is expanded recursively. -/
def flattenChildren : List PyChild → List PyChild
  | [] => []
  | .many xs :: cs => flattenChildren xs ++ flattenChildren cs
  | c :: cs => c :: flattenChildren cs

/-- `separate_attributes_and_children`: a leading `dict` is the attributes,
the remaining values are flattened into the children; otherwise everything
is children. -/
def separate_attributes_and_children (values : List PyChild) :
    List (String × AVal) × List PyChild :=
  match values with
  | .attrs m :: rest => (m, flattenChildren rest)
  | vs => ([], flattenChildren vs)

/-- The regular expression `^on[A-Z]\w+` of `EVENT_ATTRIBUTE_PATTERN`
anchored by `re.match`: the name starts with `on`, an ASCII uppercase
letter, and at least one word character. -/
def eventAttrPattern (k : String) : Bool :=
  match k.data with
  | 'o' :: 'n' :: c :: d :: _ => c.isUpper && (d.isAlphanum || d == '_')
  | _ => false

/-- `separate_attributes_handlers_and_inline_javascript`: callables and
`EventHandler` instances become event handlers, text values whose name
matches the event pattern and `InlineJavaScript` instances become inline
script, everything else stays an attribute. -/
def separate_attributes_handlers_and_inline_javascript
    (attrs : List (String × AVal)) :
    List (String × AVal) × List (String × Nat) × List (String × String) :=
  match attrs with
  | [] => ([], [], [])
  | (k, v) :: rest =>
    let r := separate_attributes_handlers_and_inline_javascript rest
    match v with
    | .callb i => (r.1, (k, i) :: r.2.1, r.2.2)
    | .handler i => (r.1, (k, i) :: r.2.1, r.2.2)
    | .s t =>
      if eventAttrPattern k then (r.1, r.2.1, (k, t) :: r.2.2)
      else ((k, .s t) :: r.1, r.2.1, r.2.2)
    | .js t => (r.1, r.2.1, (k, t) :: r.2.2)
    | other => ((k, other) :: r.1, r.2.1, r.2.2)

/-- Find an attribute by name: `attributes.get("key", None)`. -/
def lookupAttr (k : String) : List (String × AVal) → Option AVal
  | [] => none
  | (k2, v) :: rest => if k2 == k then some v else lookupAttr k rest

def keyName : String := "key"

/-- The constructed node: the keys of the result dictionary of
`Vdom.__call__` (a missing `key` is `none`; missing collections are
empty). -/
structure VdomNode where
  tagName : String
  key : Option AVal
  children : List PyChild
  attributes : List (String × AVal)
  eventHandlers : List (String × Nat)
  inlineJavaScript : List (String × String)

/-- `Vdom.__call__` on the default constructor path; `none` models the
`TypeError` for children on a childless node kind. -/
def vdomCall (tagName : String) (allowChildren : Bool) (values : List PyChild) :
    Option VdomNode :=
  let ac := separate_attributes_and_children values
  let key := lookupAttr keyName ac.1
  let sep := separate_attributes_handlers_and_inline_javascript ac.1
  if !ac.2.isEmpty && !allowChildren then none
  else some {
    tagName := tagName
    key := key
    children := ac.2
    attributes := sep.1
    eventHandlers := sep.2.1
    inlineJavaScript := sep.2.2 }

/-! ### The renderers — idom/core/render.py

`LayoutUpdate` is the `(src, new, old, error)` tuple destructured from
`layout.render()`; node payloads are opaque strings and the shared model is
an insertion-ordered association list, like a Python dict keyed by node
id. -/

/-- The shared model and the `new` mapping: node id to node payload. -/
abbrev Model := List (String × String)

/-- The keys of a model, in insertion order. -/
def keysOf (m : Model) : List String := m.map Prod.fst

/-- One `(src, new, old, error)` tuple produced by `layout.render()`. -/
structure LayoutUpdate where
  src : String
  new : Model
  old : List String
  error : Option String
deriving DecidableEq, Repr

/-- The outgoing message dictionary: both `_outgoing` methods build exactly
`{"root": ..., "src": ..., "new": ..., "old": ...}` — there is no error
entry. -/
structure OutMsg where
  root : String
  src : String
  new : Model
  old : List String
deriving DecidableEq, Repr

/-- `SingleStateRenderer._outgoing`: package one update. -/
def single_outgoing (root : String) (u : LayoutUpdate) : OutMsg :=
  { root := root, src := u.src, new := u.new, old := u.old }

/-- `SharedStateRenderer._outgoing`: package one queued update. -/
def shared_outgoing (root : String) (u : LayoutUpdate) : OutMsg :=
  { root := root, src := u.src, new := u.new, old := u.old }

/-- C8 — `SharedStateRenderer._outgoing_loop`: when the root is already a
key of the shared model, send one synthetic snapshot
`{root, src=root, new=<entire model>, old=[]}` first, then fall back to the
inherited loop, which repeatedly sends `_outgoing` of the next queued
update.  The messages produced while draining the given queue contents. -/
def shared_outgoing_loop (root : String) (models : Model)
    (queue : List LayoutUpdate) : List OutMsg :=
  (if (keysOf models).contains root then
    [{ root := root, src := root, new := models, old := [] }]
  else []) ++ queue.map (shared_outgoing root)

/-- Python `dict` assignment `m[k] = v`: replace in place or append. -/
def dictSet (m : Model) (k : String) (v : String) : Model :=
  if (keysOf m).contains k then
    m.map fun kv => if kv.1 == k then (k, v) else kv
  else m ++ [(k, v)]

/-- Python `self._models.update(new)`. -/
def dictUpdate (m : Model) (new : Model) : Model :=
  new.foldl (fun acc kv => dictSet acc kv.1 kv.2) m

/-- Python `del m[k]` on a present key. -/
def delKey (m : Model) (k : String) : Model :=
  m.filter fun kv => kv.1 != k

/-- The eviction loop `for old_id in old: del self._models[old_id]`,
stopping with `some id` at the first id that is not a key (the raised
`KeyError`), and returning the model state at that point. -/
def evictRun : Model → List String → Model × Option String
  | m, [] => (m, none)
  | m, id :: ids =>
    if (keysOf m).contains id then evictRun (delKey m id) ids
    else (m, some id)

/-- The outcome of one iteration of `SharedStateRenderer._render_loop`:
the model state it leaves behind, whether the update reached the client
queues, and the id of the raised `KeyError` if any. -/
structure RenderStep where
  models : Model
  enqueued : Bool
  keyError : Option String
deriving DecidableEq, Repr

/-- C10 — one iteration of `_render_loop`: merge `new` into the shared
model, evict every id of `old`, and only then enqueue the update to every
client queue.  A missing id raises before any enqueue but after the
merge. -/
def render_loop_step (models : Model) (u : LayoutUpdate) : RenderStep :=
  let merged := dictUpdate models u.new
  match evictRun merged u.old with
  | (m, none) => { models := m, enqueued := true, keyError := none }
  | (m, some e) => { models := m, enqueued := false, keyError := some e }

/-! ### C9 — `SharedStateRenderer.__aexit__` / `join()`

Two concurrent callers of `join()`.  Each runs: check-and-set of the
`_joining` flag (atomic, no await between the test and the assignment); the
initiator then awaits `task_group.__aexit__` (the teardown), and on resuming
runs `_render_task.cancel()`, `_join_event.set()` (waking every waiter),
`_join_event.clear()` and the outer `finally` resetting `_joining`, all
without an intervening await; a non-initiator awaits `_join_event.wait()`
and, once woken, runs its own outer `finally` resetting `_joining`. -/

/-- The program counter of one `join()` caller.  `doneI` is a caller that
ran the teardown itself, `doneW` one that waited for another's teardown. -/
inductive JPC where
  | start : JPC
  | inAexit : JPC
  | blocked : JPC
  | woken : JPC
  | doneI : JPC
  | doneW : JPC
deriving DecidableEq, Repr

/-- The joint state of the `_joining` flag and the two callers. -/
structure JState where
  joining : Bool
  pc0 : JPC
  pc1 : JPC
deriving DecidableEq, Repr

/-- Advance one caller by one atomic section.  A blocked or finished caller
does not move. -/
def jstep (s : JState) (i : Bool) : JState :=
  let pc := if i then s.pc1 else s.pc0
  let put : JState → JPC → JState := fun t p =>
    if i then { t with pc1 := p } else { t with pc0 := p }
  match pc with
  | .start =>
    if s.joining then put s .blocked
    else put { s with joining := true } .inAexit
  | .inAexit =>
    let wake : JPC → JPC := fun p => if p = .blocked then .woken else p
    put { joining := false, pc0 := wake s.pc0, pc1 := wake s.pc1 } .doneI
  | .blocked => s
  | .woken => put { s with joining := false } .doneW
  | .doneI => s
  | .doneW => s

/-- Both callers at the entry of `join()`, no teardown yet. -/
def jinit : JState := { joining := false, pc0 := .start, pc1 := .start }

/-- Run a schedule of caller turns. -/
def runJoin (sched : List Bool) : JState :=
  sched.foldl jstep jinit

/-- How many times `task_group.__aexit__` has been entered: once per caller
on the initiator path. -/
def teardownCount (s : JState) : Nat :=
  (if s.pc0 = .inAexit ∨ s.pc0 = .doneI then 1 else 0) +
    (if s.pc1 = .inAexit ∨ s.pc1 = .doneI then 1 else 0)

/-- How many times the teardown has completed (`_render_task.cancel()` ran,
`_join_event` was set). -/
def cancelCount (s : JState) : Nat :=
  (if s.pc0 = .doneI then 1 else 0) + (if s.pc1 = .doneI then 1 else 0)

/-- A caller that found a teardown in progress and waited for it. -/
def waiterPath (p : JPC) : Bool :=
  p = .blocked ∨ p = .woken ∨ p = .doneW

/-- The states reachable from `jinit`: the `_joining` flag is set exactly
while a caller is inside `task_group.__aexit__`, at most one caller is, a
blocked caller coexists only with a caller mid-teardown, and a woken or
finished waiter coexists only with a caller whose teardown completed. -/
def jinv (s : JState) : Bool :=
  (s.joining == (s.pc0 == .inAexit || s.pc1 == .inAexit)) &&
    !(s.pc0 == .inAexit && s.pc1 == .inAexit) &&
    (!(s.pc0 == .blocked) || s.pc1 == .inAexit) &&
    (!(s.pc1 == .blocked) || s.pc0 == .inAexit) &&
    (!(s.pc0 == .woken || s.pc0 == .doneW) || s.pc1 == .doneI) &&
    (!(s.pc1 == .woken || s.pc1 == .doneW) || s.pc0 == .doneI)

/-! ## Theorems -/

/-- C1 — For every state cell and every sequence of dispatch calls, the
stored value equals the last dispatched value the equality policy
(`strictly_equal`) judged different from the then-current value (the initial
value when none was accepted), and `schedule_render` is called exactly once
per accepted change and never for a rejected (equal) one. -/
theorem c1_use_state_dispatch (v : PyVal) (r : Nat) (args : List DArg) :
    (dispatchAll { value := v, renders := r } args).value =
      lastD (acceptedValues v args) v ∧
    (dispatchAll { value := v, renders := r } args).renders =
      r + (acceptedValues v args).length := by
  induction args generalizing v r with
  | nil => exact ⟨rfl, rfl⟩
  | cons a rest ih =>
    have hstep : dispatchAll { value := v, renders := r } (a :: rest) =
        dispatchAll (dispatch { value := v, renders := r } a) rest := rfl
    by_cases h : strictly_equal (nextValue v a) v = true
    · have h1 : dispatch { value := v, renders := r } a =
          { value := v, renders := r } := by
        simp [dispatch, h]
      have h2 : acceptedValues v (a :: rest) = acceptedValues v rest := by
        simp [acceptedValues, h]
      rw [hstep, h1, h2]
      exact ih v r
    · have h1 : dispatch { value := v, renders := r } a =
          { value := nextValue v a, renders := r + 1 } := by
        simp [dispatch, h]
      have h2 : acceptedValues v (a :: rest) =
          nextValue v a :: acceptedValues (nextValue v a) rest := by
        simp [acceptedValues, h]
      rw [hstep, h1, h2]
      obtain ⟨ihv, ihr⟩ := ih (nextValue v a) (r + 1)
      refine ⟨ihv.trans rfl, ?_⟩
      rw [ihr, List.length_cons]
      omega

/-- C2 — `use_memo` recomputes (invokes the function, storing value and
deps) exactly when the memo cell is empty, or the dependency list is `None`,
or the new dependency sequence differs from the stored one in length or in
some pairwise element under `strictly_equal`; otherwise it returns the
stored value unchanged, independent of the supplied function. -/
theorem c2_use_memo (memo : Option MemoCell) (deps : Option (List PyVal))
    (f : Unit → PyVal) :
    ((use_memo memo deps f).2.2 = true ↔
      memo = none ∨ deps = none ∨
        ∃ m d, memo = some m ∧ deps = some d ∧ depsChanged m.deps d = true) ∧
    ((use_memo memo deps f).2.2 = true →
      (use_memo memo deps f).2.1 = f () ∧
        (use_memo memo deps f).1.value = f ()) ∧
    ((use_memo memo deps f).2.2 = false → ∀ g : Unit → PyVal,
      use_memo memo deps g =
        ((use_memo memo deps f).1, (use_memo memo deps f).2.1, false)) ∧
    (∀ m, memo = some m → (use_memo memo deps f).2.2 = false →
      (use_memo memo deps f).1 = m ∧ (use_memo memo deps f).2.1 = m.value) := by
  rcases memo with _ | m
  · simp [use_memo]
  · rcases deps with _ | d
    · simp [use_memo]
    · by_cases h : depsChanged m.deps d = true
      · simp [use_memo, h]
      · simp [use_memo, h]

/-- Scalar-class values of equal runtime type compare by `==` exactly as the
spec's by-value comparison prescribes. -/
theorem pyEq_scalar (x y : PyVal) (hs : scalarValue x = true)
    (ht : pyType x = pyType y) : pyEq x y = scalarEqSpec x y := by
  cases x <;> cases y <;>
    simp_all [scalarValue, pyType, pyEq, scalarEqSpec]

/-- C3 (amended) — `strictly_equal` returns false for differing runtime
types; compares the scalar/text/binary-sequence class by value; compares
locally-defined or anonymous callables by qualified name plus the code
fingerprint that excludes the four position-metadata attributes; and for
every other pair of values compares with the type's `==` operator — which
for plain class instances is reference identity but for containers such as
lists is value equality (the literal identity fallback of the source is
reachable only when `==` raises). -/
theorem c3_strictly_equal_policy (x y : PyVal) :
    strictly_equal x y = strictlyEqualSpec x y := by
  unfold strictly_equal strictlyEqualSpec isLocalCallable
  by_cases ht : (pyType x != pyType y) = true
  · simp [ht]
  · have hteq : pyType x = pyType y := by
      simpa [bne] using ht
    by_cases hl : (hasQualname x &&
        (containsSub (qualnameOf x) lambdaTag ||
          containsSub (qualnameOf x) localsTag) && hasCode x) = true
    · simp only [ht, hl, if_true, if_false, Bool.false_eq_true, ite_false,
        ite_true]
      cases hq : qualnameOf x == qualnameOf y <;>
        simp [bne, hq]
    · simp only [ht, hl, hasEqAttr, Bool.false_eq_true, ite_false, ite_true,
        if_true]
      by_cases hsc : scalarValue x = true
      · simp [hsc, pyEq_scalar x y hsc hteq]
      · simp [hsc]

/-- C3 counterexample — two distinct list objects with equal contents: same
runtime type, not callables, not of the scalar class, yet `strictly_equal`
returns true while reference identity is false, refuting the claim that
every such pair falls back to reference identity rather than value
equality. -/
theorem c3_counterexample :
    strictly_equal (PyVal.vlist [PyVal.vint 1] 1) (PyVal.vlist [PyVal.vint 1] 2) = true ∧
    pyIs (PyVal.vlist [PyVal.vint 1] 1) (PyVal.vlist [PyVal.vint 1] 2) = false ∧
    pyType (PyVal.vlist [PyVal.vint 1] 1) = pyType (PyVal.vlist [PyVal.vint 1] 2) ∧
    isLocalCallable (PyVal.vlist [PyVal.vint 1] 1) = false ∧
    scalarValue (PyVal.vlist [PyVal.vint 1] 1) = false := by
  refine ⟨rfl, rfl, rfl, rfl, rfl⟩

/-- Unfolding one block of `execBlocks`. -/
theorem execBlocks_cons (ret : Nat → Bool) (ref : Option Nat) (b : Block)
    (bs : List Block) :
    execBlocks ret ref (b :: bs) =
      ((execBlocks ret (execBlock ret ref b).1 bs).1,
        (execBlock ret ref b).2 ++ (execBlocks ret (execBlock ret ref b).1 bs).2) :=
  rfl

/-- Evaluation lemma for `run_effect_cleanup`. -/
theorem rec_none_fst : (run_effect_cleanup (none : Option Nat)).1 = none := rfl

theorem rec_none_snd : (run_effect_cleanup (none : Option Nat)).2 = [] := rfl

theorem rec_some_fst (c : Nat) : (run_effect_cleanup (some c)).1 = none := rfl

theorem rec_some_snd (c : Nat) :
    (run_effect_cleanup (some c)).2 = [Ev.invoked c] := rfl

theorem count_ran_singleton (n m : Nat) :
    List.count (Ev.invoked n) [Ev.ran m] = 0 := by
  simp [List.count_cons]

theorem count_invoked_singleton_eq {c n : Nat} (h : c = n) :
    List.count (Ev.invoked n) [Ev.invoked c] = 1 := by
  simp [List.count_cons, h]

theorem count_invoked_singleton_ne {c n : Nat} (h : ¬ c = n) :
    List.count (Ev.invoked n) [Ev.invoked c] = 0 := by
  simp [List.count_cons, h]

/-- Monotonicity of the activation bit. -/
theorem actBit_mono {m n : Nat} :
    (if m + 1 ≤ n then (1 : Nat) else 0) ≤ (if m ≤ n then 1 else 0) := by
  split
  · rw [if_pos (by omega)]
  · simp

/-- Counting invocations of registration `n`'s cleanup: bounded by whether it
is currently stored plus whether registration `n` is still to activate. -/
theorem c4_count_aux (ret : Nat → Bool) (n : Nat) :
    ∀ {next : Nat} {sched : List Block}, Sched next sched →
      ∀ ref : Option Nat, (∀ c, ref = some c → c + 1 = next) →
      (List.count (Ev.invoked n) (execBlocks ret ref sched).2) ≤
        (if ref = some n then 1 else 0) + (if next ≤ n then 1 else 0) := by
  intro next sched h
  induction h with
  | nil m =>
    intro ref href
    simp [execBlocks]
  | @pre m bs hs ih =>
    intro ref href
    rw [execBlocks_cons]
    simp only [execBlock, List.count_append]
    rw [count_ran_singleton, Nat.add_zero]
    by_cases hr : ret m = true
    · rw [if_pos hr]
      have hrest := ih (some m) (by intro c hc; cases hc; rfl)
      rcases ref with _ | c
      · rw [rec_none_snd, List.count_nil, Nat.zero_add]
        rw [if_neg (by simp : ¬ (none : Option Nat) = some n), Nat.zero_add]
        by_cases hmn : m = n
        · rw [if_pos (show (some m : Option Nat) = some n by rw [hmn]),
            if_neg (show ¬ m + 1 ≤ n by omega), Nat.add_zero] at hrest
          rw [if_pos (show m ≤ n by omega)]
          omega
        · rw [if_neg (fun hh => hmn (Option.some.inj hh)), Nat.zero_add] at hrest
          have := actBit_mono (m := m) (n := n)
          omega
      · have hcm : c + 1 = m := href c rfl
        rw [rec_some_snd]
        by_cases hcn : c = n
        · rw [count_invoked_singleton_eq hcn]
          rw [if_pos (show (some c : Option Nat) = some n by rw [hcn]),
            if_neg (show ¬ m ≤ n by omega), Nat.add_zero]
          rw [if_neg (show ¬ (some m : Option Nat) = some n by
              exact fun hh => by have := Option.some.inj hh; omega),
            if_neg (show ¬ m + 1 ≤ n by omega), Nat.add_zero] at hrest
          omega
        · rw [count_invoked_singleton_ne hcn, Nat.zero_add]
          rw [if_neg (fun hh => hcn (Option.some.inj hh)), Nat.zero_add]
          by_cases hmn : m = n
          · rw [if_pos (show (some m : Option Nat) = some n by rw [hmn]),
              if_neg (show ¬ m + 1 ≤ n by omega), Nat.add_zero] at hrest
            rw [if_pos (show m ≤ n by omega)]
            omega
          · rw [if_neg (fun hh => hmn (Option.some.inj hh)), Nat.zero_add] at hrest
            have := actBit_mono (m := m) (n := n)
            omega
    · rw [if_neg hr]
      have hrest := ih none (by intro c hc; cases hc)
      rw [if_neg (by simp : ¬ (none : Option Nat) = some n), Nat.zero_add] at hrest
      rcases ref with _ | c
      · rw [rec_none_snd, List.count_nil, Nat.zero_add]
        rw [if_neg (by simp : ¬ (none : Option Nat) = some n), Nat.zero_add]
        have := actBit_mono (m := m) (n := n)
        omega
      · have hcm : c + 1 = m := href c rfl
        rw [rec_some_snd]
        by_cases hcn : c = n
        · rw [count_invoked_singleton_eq hcn]
          rw [if_pos (show (some c : Option Nat) = some n by rw [hcn]),
            if_neg (show ¬ m ≤ n by omega), Nat.add_zero]
          rw [if_neg (show ¬ m + 1 ≤ n by omega)] at hrest
          omega
        · rw [count_invoked_singleton_ne hcn, Nat.zero_add]
          rw [if_neg (fun hh => hcn (Option.some.inj hh)), Nat.zero_add]
          have := actBit_mono (m := m) (n := n)
          omega
  | @post m k bs hk hs ih =>
    intro ref href
    rw [execBlocks_cons]
    simp only [execBlock, List.count_append]
    rcases ref with _ | c
    · rw [rec_none_snd, rec_none_fst, List.count_nil, Nat.zero_add]
      have hrest := ih none (by intro c hc; cases hc)
      rw [if_neg (by simp : ¬ (none : Option Nat) = some n), Nat.zero_add] at hrest ⊢
      exact hrest
    · rw [rec_some_snd, rec_some_fst]
      have hrest := ih none (by intro c2 hc; cases hc)
      rw [if_neg (by simp : ¬ (none : Option Nat) = some n), Nat.zero_add] at hrest
      by_cases hcn : c = n
      · rw [count_invoked_singleton_eq hcn,
          if_pos (show (some c : Option Nat) = some n by rw [hcn])]
        omega
      · rw [count_invoked_singleton_ne hcn, Nat.zero_add,
          if_neg (fun hh => hcn (Option.some.inj hh)), Nat.zero_add]
        exact hrest


/-- The derived equality test on events agrees with equality of the
registration indices. -/
theorem invoked_beq (c n : Nat) : (Ev.invoked c == Ev.invoked n) = (c == n) := by
  by_cases h : c = n
  · simp [h]
  · simp [h]

theorem ran_beq_invoked (m n : Nat) : (Ev.ran m == Ev.invoked n) = false := by
  cases hbe : Ev.ran m == Ev.invoked n
  · rfl
  · exact absurd (eq_of_beq hbe) (fun hh => Ev.noConfusion hh)

theorem seen_cons (n : Nat) (e : Ev) (l : List Ev) :
    seenInvoked n (e :: l) = ((e == Ev.invoked n) || seenInvoked n l) := by
  simp [seenInvoked, List.any_cons]

theorem cbb_cons_invoked (n : Nat) (s : Bool) (c : Nat) (l : List Ev) :
    cleanBeforeBody n s (Ev.invoked c :: l) =
      cleanBeforeBody n (s || (c == n)) l := rfl

theorem cbb_cons_ran (n : Nat) (s : Bool) (k : Nat) (l : List Ev) :
    cleanBeforeBody n s (Ev.ran k :: l) =
      (if k = n + 1 then s && cleanBeforeBody n s l
       else cleanBeforeBody n s l) := rfl

/-- The ordering scan distributes over an appended trace: the right part is
scanned with the accumulated knowledge of the left. -/
theorem cbb_append (n : Nat) :
    ∀ (xs ys : List Ev) (s : Bool),
      cleanBeforeBody n s (xs ++ ys) =
        (cleanBeforeBody n s xs &&
          cleanBeforeBody n (s || seenInvoked n xs) ys) := by
  intro xs
  induction xs with
  | nil =>
    intro ys s
    simp [cleanBeforeBody, seenInvoked]
  | cons e rest ih =>
    intro ys s
    rw [List.cons_append]
    cases e with
    | invoked c =>
      rw [cbb_cons_invoked, ih, cbb_cons_invoked, seen_cons, invoked_beq,
        Bool.or_assoc]
    | ran k =>
      rw [cbb_cons_ran, cbb_cons_ran, seen_cons, ran_beq_invoked,
        Bool.false_or]
      by_cases hk : k = n + 1
      · rw [if_pos hk, if_pos hk, ih, Bool.and_assoc]
      · rw [if_neg hk, if_neg hk, ih]

/-- Ordering of cleanups and bodies for claim C4: when registration `n`
returns a cleanup, every run of registration `n+1`'s body in a valid
interleaving is preceded by the invocation of registration `n`'s cleanup. -/
theorem c4_clean_aux (ret : Nat → Bool) (n : Nat) (hret : ret n = true) :
    ∀ {next : Nat} {sched : List Block}, Sched next sched →
      ∀ (ref : Option Nat) (s : Bool),
      (∀ c, ref = some c → c + 1 = next) →
      (next ≠ n + 1 ∨ s = true ∨ ref = some n) →
      cleanBeforeBody n s (execBlocks ret ref sched).2 = true := by
  intro next sched h
  induction h with
  | nil m =>
    intro ref s href hpre
    rfl
  | @pre m bs hs ih =>
    intro ref s href hpre
    rw [execBlocks_cons]
    simp only [execBlock]
    have hinv : ∀ c, (if ret m then some m else none) = some c → c + 1 = m + 1 := by
      intro c hc
      by_cases hr : ret m = true
      · rw [if_pos hr] at hc
        cases hc
        rfl
      · simp [hr] at hc
    rcases ref with _ | c
    · rw [rec_none_snd, List.nil_append, List.cons_append, List.nil_append,
        cbb_cons_ran]
      by_cases hm : m = n + 1
      · have hst : s = true := by
          rcases hpre with h1 | h2 | h3
          · exact absurd hm h1
          · exact h2
          · cases h3
        subst hst
        rw [if_pos hm, Bool.true_and]
        exact ih _ true hinv (Or.inr (Or.inl rfl))
      · rw [if_neg hm]
        by_cases hmn : m = n
        · refine ih _ s hinv (Or.inr (Or.inr ?_))
          rw [hmn, if_pos hret]
        · exact ih _ s hinv (Or.inl (by omega))
    · have hcm : c + 1 = m := href c rfl
      rw [rec_some_snd]
      simp only [List.cons_append, List.nil_append]
      rw [cbb_cons_invoked, cbb_cons_ran]
      by_cases hcn : c = n
      · have hce : (c == n) = true := by simp [hcn]
        rw [hce, Bool.or_true]
        by_cases hm : m = n + 1
        · rw [if_pos hm, Bool.true_and]
          exact ih _ true hinv (Or.inr (Or.inl rfl))
        · rw [if_neg hm]
          exact ih _ true hinv (Or.inr (Or.inl rfl))
      · have hce : (c == n) = false := by simp [hcn]
        rw [hce, Bool.or_false]
        by_cases hm : m = n + 1
        · have hst : s = true := by
            rcases hpre with h1 | h2 | h3
            · exact absurd hm h1
            · exact h2
            · exact absurd (Option.some.inj h3) hcn
          subst hst
          rw [if_pos hm, Bool.true_and]
          exact ih _ true hinv (Or.inr (Or.inl rfl))
        · rw [if_neg hm]
          by_cases hmn : m = n
          · refine ih _ s hinv (Or.inr (Or.inr ?_))
            rw [hmn, if_pos hret]
          · exact ih _ s hinv (Or.inl (by omega))
  | @post m k bs hk hs ih =>
    intro ref s href hpre
    rw [execBlocks_cons]
    simp only [execBlock]
    rcases ref with _ | c
    · rw [rec_none_snd, rec_none_fst, List.nil_append]
      refine ih none s (fun c2 hc => by cases hc) ?_
      rcases hpre with h1 | h2 | h3
      · exact Or.inl h1
      · exact Or.inr (Or.inl h2)
      · cases h3
    · rw [rec_some_snd, rec_some_fst, List.cons_append, List.nil_append,
        cbb_cons_invoked]
      refine ih none _ (fun c2 hc => by cases hc) ?_
      rcases hpre with h1 | h2 | h3
      · exact Or.inl h1
      · exact Or.inr (Or.inl (by simp [h2]))
      · have hcn : c = n := Option.some.inj h3
        exact Or.inr (Or.inl (by simp [hcn]))

/-- C4 — For every effect hook slot, every activation sequence and every
registration `n`: the cleanup stored by registration `n` is invoked at most
once, and whenever registration `n+1`'s body runs, registration `n`'s
cleanup (when it returned one) has already been invoked. -/
theorem c4_use_effect_cleanup (ret : Nat → Bool) (sched : List Block)
    (h : Sched 0 sched) (n : Nat) :
    (List.count (Ev.invoked n) (execBlocks ret none sched).2) ≤ 1 ∧
    (ret n = true →
      cleanBeforeBody n false (execBlocks ret none sched).2 = true) := by
  constructor
  · have hb := c4_count_aux ret n h none (fun c hc => by cases hc)
    have h1 : (if (none : Option Nat) = some n then (1 : Nat) else 0) = 0 := by
      simp
    have h2 : (if (0 : Nat) ≤ n then (1 : Nat) else 0) = 1 := by
      rw [if_pos (Nat.zero_le n)]
    rw [h1, h2, Nat.zero_add] at hb
    exact hb
  · intro hret
    exact c4_clean_aux ret n hret h none false (fun c hc => by cases hc)
      (Or.inl (by omega))

/-- Witness for C4 at a concrete activation sequence: two registrations that
both return cleanups, each stopped after its successor started. -/
theorem c4_use_effect_cleanup_witness :
    (List.count (Ev.invoked 0)
      (execBlocks (fun _ => true) none
        [Block.pre 0, Block.pre 1, Block.post 0, Block.post 1]).2) ≤ 1 ∧
    ((fun _ => true : Nat → Bool) 0 = true →
      cleanBeforeBody 0 false
        (execBlocks (fun _ => true) none
          [Block.pre 0, Block.pre 1, Block.post 0, Block.post 1]).2 = true) :=
  c4_use_effect_cleanup (fun _ => true)
    [Block.pre 0, Block.pre 1, Block.post 0, Block.post 1]
    (Sched.pre (Sched.pre (Sched.post (by omega)
      (Sched.post (by omega) (Sched.nil 2))))) 0

/-- C5 — After the stop signal, `use_async_effect` gives the body's task the
`shutdown_timeout` grace period (abstracted as the oracle `taskDone`): when
the task finished in time its returned value becomes the cleanup and is
invoked; when it did not, the cleanup runs without taking any result from
the body (the outcome is independent of the would-be result); and in either
case `task.cancel()` runs exactly once, after the cleanup. -/
theorem c5_use_async_effect_shutdown (cleanup0 : Option Nat) (taskDone : Bool)
    (taskResult : Option Nat) :
    (taskDone = true → ∀ c, taskResult = some c →
      (async_effect_shutdown cleanup0 taskDone taskResult).2 =
        [AEv.invoked c, AEv.cancelled]) ∧
    (taskDone = false → ∀ r2 : Option Nat,
      async_effect_shutdown cleanup0 taskDone taskResult =
        async_effect_shutdown cleanup0 false r2) ∧
    (taskDone = false → ∀ c, cleanup0 = some c →
      (async_effect_shutdown cleanup0 taskDone taskResult).2 =
        [AEv.invoked c, AEv.cancelled]) ∧
    ((async_effect_shutdown cleanup0 taskDone taskResult).2.getLast? =
      some AEv.cancelled) ∧
    (List.count AEv.cancelled
      (async_effect_shutdown cleanup0 taskDone taskResult).2 = 1) := by
  rcases taskDone with _ | _
  · rcases cleanup0 with _ | c
    · simp [async_effect_shutdown]
    · simp [async_effect_shutdown, List.count_cons]
  · rcases taskResult with _ | c
    · simp [async_effect_shutdown]
    · simp [async_effect_shutdown, List.count_cons]

def c6Args : List PyChild :=
  [PyChild.attrs [(keyName, AVal.s ("a"))], PyChild.text ("x"),
    PyChild.text ("y")]

/-- C6 counterexample — `node({"key": "a"}, "x", "y")`: the source reads the
key with `attributes.get("key", None)` but never removes it, so the
attributes mapping of the constructed node still carries the key entry and
is not empty. -/
theorem c6_counterexample :
    (vdomCall ("div") true c6Args).map VdomNode.attributes =
      some [(keyName, AVal.s ("a"))] ∧
    some [(keyName, AVal.s ("a"))] ≠
      some ([] : List (String × AVal)) := by
  refine ⟨?_, by simp⟩
  simp [vdomCall, c6Args, separate_attributes_and_children, flattenChildren,
    separate_attributes_handlers_and_inline_javascript, lookupAttr, keyName,
    eventAttrPattern]

/-- C6 (amended) — `node({"key": "a"}, "x", "y")` yields a node whose key is
`"a"` and whose children are `["x", "y"]` in order, but whose attributes
mapping still contains the `key` entry: the key is read, not extracted. -/
theorem c6_vdom_leading_mapping :
    vdomCall ("div") true c6Args = some {
      tagName := "div"
      key := some (AVal.s ("a"))
      children := [PyChild.text ("x"), PyChild.text ("y")]
      attributes := [(keyName, AVal.s ("a"))]
      eventHandlers := []
      inlineJavaScript := [] } := by
  simp [vdomCall, c6Args, separate_attributes_and_children, flattenChildren,
    separate_attributes_handlers_and_inline_javascript, lookupAttr, keyName,
    eventAttrPattern]

/-- C7 counterexample — the outgoing message is identical whether or not the
update carries an error marker: `_outgoing` builds only `root`, `src`,
`new` and `old`, so the error is not forwarded to the client at all. -/
theorem c7_counterexample :
    single_outgoing ("r")
        { src := "s", new := [], old := [], error := some ("boom") } =
      single_outgoing ("r")
        { src := "s", new := [], old := [], error := none } ∧
    shared_outgoing ("r")
        { src := "s", new := [], old := [], error := some ("boom") } =
      shared_outgoing ("r")
        { src := "s", new := [], old := [], error := none } ∧
    (some ("boom") : Option String) ≠ none := by
  exact ⟨rfl, rfl, by simp⟩

/-- C7 (amended) — both renderers package an update as exactly
`{root, src, new, old}`: the `error` field of the update tuple is dropped,
not forwarded; the renderer also never interprets it (the message does not
depend on it). -/
theorem c7_outgoing_drops_error (root : String) (u : LayoutUpdate) :
    single_outgoing root u =
      { root := root, src := u.src, new := u.new, old := u.old } ∧
    shared_outgoing root u =
      { root := root, src := u.src, new := u.new, old := u.old } ∧
    (∀ e : Option String,
      single_outgoing root { u with error := e } = single_outgoing root u) ∧
    (∀ e : Option String,
      shared_outgoing root { u with error := e } = shared_outgoing root u) := by
  exact ⟨rfl, rfl, fun _ => rfl, fun _ => rfl⟩

/-- C8 — A joining client whose root is already a key of the shared model
receives, before any queued update, exactly one synthetic snapshot with
`src` the root, `new` the entire current shared model and `old` empty, and
then the queued updates in order; a client whose root is not yet in the
shared model receives no snapshot and drains its queue directly. -/
theorem c8_shared_snapshot (root : String) (models : Model)
    (queue : List LayoutUpdate) :
    ((keysOf models).contains root = true →
      shared_outgoing_loop root models queue =
        { root := root, src := root, new := models, old := [] } ::
          queue.map (shared_outgoing root)) ∧
    ((keysOf models).contains root = false →
      shared_outgoing_loop root models queue =
        queue.map (shared_outgoing root)) := by
  constructor
  · intro h
    simp only [shared_outgoing_loop]
    rw [if_pos h, List.singleton_append]
  · intro h
    simp only [shared_outgoing_loop]
    rw [if_neg (fun hh => by rw [h] at hh; cases hh), List.nil_append]

/-- The invariant holds initially. -/
theorem jinv_init : jinv jinit = true := by decide

/-- The invariant is preserved by every step of either caller. -/
theorem jinv_step (s : JState) (i : Bool) (h : jinv s = true) :
    jinv (jstep s i) = true := by
  rcases s with ⟨j, p0, p1⟩
  revert h
  cases j <;> cases p0 <;> cases p1 <;> cases i <;> decide

/-- The invariant holds after any schedule. -/
theorem jinv_foldl : ∀ (sched : List Bool) (s : JState),
    jinv s = true → jinv (sched.foldl jstep s) = true := by
  intro sched
  induction sched with
  | nil => intro s h; exact h
  | cons b bs ih =>
    intro s h
    exact ih (jstep s b) (jinv_step s b h)

theorem jinv_run (sched : List Bool) : jinv (runJoin sched) = true :=
  jinv_foldl sched jinit jinv_init

/-- C9 counterexample — a second `join()` issued after the first one
completed re-runs the teardown: `_joining` is reset in the outer `finally`,
so across these invocations the cancellation-scope exit runs twice, not
exactly once as the claim states for any number of sequential or concurrent
invocations. -/
theorem c9_counterexample :
    teardownCount (runJoin [false, false, true, true]) = 2 ∧ (2 : Nat) ≠ 1 := by
  constructor
  · rfl
  · decide

/-- C9 (amended) — two concurrent callers coalesce: a caller that finds a
teardown in progress (the waiter path: it blocked on `_join_event`) never
starts a second teardown, so the cancellation-scope exit and the render-task
cancellation run exactly once, and a waiter returns (`doneW`) only after the
single teardown has completed (`cancelCount` is already 1 when it does).  A
`join()` issued after a completed teardown starts a fresh one, so
exactly-once holds for overlapping invocations only. -/
theorem c9_join_idempotent_concurrent (sched : List Bool) :
    (waiterPath (runJoin sched).pc1 = true →
      teardownCount (runJoin sched) = 1 ∧ cancelCount (runJoin sched) ≤ 1) ∧
    (waiterPath (runJoin sched).pc0 = true →
      teardownCount (runJoin sched) = 1 ∧ cancelCount (runJoin sched) ≤ 1) ∧
    ((runJoin sched).pc0 = JPC.doneW → cancelCount (runJoin sched) = 1) ∧
    ((runJoin sched).pc1 = JPC.doneW → cancelCount (runJoin sched) = 1) := by
  have h := jinv_run sched
  revert h
  generalize runJoin sched = s
  rcases s with ⟨j, p0, p1⟩
  cases j <;> cases p0 <;> cases p1 <;> decide

/-- Keys only disappear through deletion. -/
theorem mem_keys_delKey {m : Model} {k id : String}
    (h : id ∈ keysOf (delKey m k)) : id ∈ keysOf m := by
  simp only [keysOf, delKey, List.mem_map] at h ⊢
  obtain ⟨kv, hkv, rfl⟩ := h
  exact ⟨kv, (List.mem_filter.mp hkv).1, rfl⟩

/-- A fully successful eviction visits only present keys. -/
theorem evictRun_none_mem :
    ∀ (old : List String) (m m2 : Model), evictRun m old = (m2, none) →
      ∀ id ∈ old, id ∈ keysOf m := by
  intro old
  induction old with
  | nil =>
    intro m m2 h id hid
    cases hid
  | cons a rest ih =>
    intro m m2 h id hid
    by_cases hc : (keysOf m).contains a = true
    · rw [evictRun, if_pos hc] at h
      rcases List.mem_cons.mp hid with rfl | hmem
      · exact List.mem_of_elem_eq_true hc
      · exact mem_keys_delKey (ih (delKey m a) m2 h id hmem)
    · rw [evictRun, if_neg hc] at h
      cases h

/-- An absent id in the eviction list makes the eviction raise. -/
theorem evictRun_absent :
    ∀ (old : List String) (m : Model),
      (∃ id, id ∈ old ∧ id ∉ keysOf m) → (evictRun m old).2.isSome = true := by
  intro old
  induction old with
  | nil =>
    intro m h
    obtain ⟨id, hid, _⟩ := h
    cases hid
  | cons a rest ih =>
    intro m h
    obtain ⟨id, hid, habs⟩ := h
    by_cases hc : (keysOf m).contains a = true
    · rw [evictRun, if_pos hc]
      rcases List.mem_cons.mp hid with rfl | hmem
      · exact absurd (List.mem_of_elem_eq_true hc) habs
      · exact ih (delKey m a) ⟨id, hmem, fun hh => habs (mem_keys_delKey hh)⟩
    · rw [evictRun, if_neg hc]
      rfl

/-- A raising eviction decomposes: a successfully evicted front, then the
offending id, which is absent at that point, with the remaining suffix
untouched. -/
theorem evictRun_split :
    ∀ (old : List String) (m m2 : Model) (e : String),
      evictRun m old = (m2, some e) →
      ∃ front rest, old = front ++ e :: rest ∧
        evictRun m front = (m2, none) ∧ e ∉ keysOf m2 := by
  intro old
  induction old with
  | nil =>
    intro m m2 e h
    rw [evictRun] at h
    cases h
  | cons a rest ih =>
    intro m m2 e h
    by_cases hc : (keysOf m).contains a = true
    · rw [evictRun, if_pos hc] at h
      obtain ⟨front, rest2, hsplit, hrun, habs⟩ := ih (delKey m a) m2 e h
      refine ⟨a :: front, rest2, by rw [hsplit, List.cons_append], ?_, habs⟩
      rw [evictRun, if_pos hc]
      exact hrun
    · rw [evictRun, if_neg hc] at h
      obtain ⟨hm, he⟩ := Prod.mk.injEq .. ▸ h
      have hae : a = e := Option.some.inj he
      subst hae
      refine ⟨[], rest, by rw [List.nil_append], ?_, ?_⟩
      · rw [evictRun, hm]
      · rw [← hm]
        intro hmem
        exact hc (List.elem_eq_true_of_mem hmem)

/-- C10 — In `_render_loop`, an update whose `old` list names an id that is
not a key of the shared model raises `KeyError`: the update is then never
enqueued to any client queue, yet `new` has already been merged (the model
left behind is the merge, partially evicted up to the missing id); eviction
succeeds only under the precondition that every removed id is present in
the merged model. -/
theorem c10_render_loop_eviction (models : Model) (u : LayoutUpdate) :
    ((∃ id, id ∈ u.old ∧ id ∉ keysOf (dictUpdate models u.new)) →
      (render_loop_step models u).keyError.isSome = true ∧
        (render_loop_step models u).enqueued = false) ∧
    ((render_loop_step models u).keyError = none →
      (render_loop_step models u).enqueued = true ∧
        ∀ id ∈ u.old, id ∈ keysOf (dictUpdate models u.new)) ∧
    (∀ e, (render_loop_step models u).keyError = some e →
      (render_loop_step models u).enqueued = false ∧
        ∃ front rest, u.old = front ++ e :: rest ∧
          evictRun (dictUpdate models u.new) front =
            ((render_loop_step models u).models, none) ∧
          e ∉ keysOf (render_loop_step models u).models) := by
  refine ⟨?_, ?_, ?_⟩
  · intro habs
    have hsome := evictRun_absent u.old (dictUpdate models u.new) habs
    simp only [render_loop_step]
    rcases hrun : evictRun (dictUpdate models u.new) u.old with ⟨m2, err⟩
    rcases err with _ | e
    · rw [hrun] at hsome
      cases hsome
    · simp
  · intro hnone
    simp only [render_loop_step] at hnone ⊢
    rcases hrun : evictRun (dictUpdate models u.new) u.old with ⟨m2, err⟩
    rcases err with _ | e
    · exact ⟨rfl, evictRun_none_mem u.old _ m2 hrun⟩
    · rw [hrun] at hnone
      simp at hnone
  · intro e he
    simp only [render_loop_step] at he ⊢
    rcases hrun : evictRun (dictUpdate models u.new) u.old with ⟨m2, err⟩
    rcases err with _ | e2
    · rw [hrun] at he
      simp at he
    · rw [hrun] at he
      have he2 : e2 = e := Option.some.inj he
      obtain ⟨front, rest, hsplit, hrunf, habs⟩ :=
        evictRun_split u.old (dictUpdate models u.new) m2 e2 hrun
      rw [he2] at hsplit habs
      exact ⟨rfl, front, rest, hsplit, hrunf, habs⟩

end ReactPySpec
